import Mathlib

/-!
A verification development for the dataset-generation scripts of the
Baseline-Comparision-For-GroupJoin repository.

The three generator scripts (`data_gen.py`, `simple_data_gen_int_int.py`,
`random_data_gen_int_int.py`) are embedded shallowly:

* Python's process-wide random generator is modelled by an entropy stream
  `rs : ℕ → ℕ` together with an explicit position `p : ℕ` that is threaded
  through every call.  `random.randint(lo, hi)` consumes one raw draw and
  returns `lo + rs p % (hi - lo + 1)`, which realises exactly the documented
  contract (a value in the closed interval `[lo, hi]`); quantifying over all
  streams `rs` quantifies over all realizations of the random source.
* Python ints are `ℤ`; Python floats are modelled as exact rationals `ℚ`
  (`int(x)` truncates toward zero, `pyInt` below).
* The unique-key sampling `while` loop of `data_gen.py` terminates only
  probabilistically, so it is embedded with an explicit fuel parameter;
  running out of fuel is a model artifact reported as a distinguished value.
* A Python `set` of ints is modelled as a duplicate-free list in insertion
  order; the claims under study depend only on its elements, never on the
  iteration order of `list(unique_key_set)`.
* The two writer threads of `data_gen.py` share no mutable state except the
  global random generator; the nondeterministic interleaving of their draws
  is modelled by giving each thread its own entropy stream.
* File output is modelled by the list of lines written; `none` for a file
  means the script returned before ever opening (hence truncating) it.
-/

namespace PyRand

/-- Python `random.randint(lo, hi)`: one draw from the stream `rs` at
position `p`, yielding an integer in the closed interval `[lo, hi]`
(for `lo ≤ hi`) and the next stream position. -/
def randint (rs : ℕ → ℕ) (p : ℕ) (lo hi : ℤ) : ℤ × ℕ :=
  (lo + (rs p : ℤ) % (hi - lo + 1), p + 1)

/-- Python `random.choice(l)`: picks the element at a random index.
(On the empty list Python raises; every call site below is guarded by a
non-emptiness check, and the default `0` is never read.) -/
def choice (rs : ℕ → ℕ) (p : ℕ) (l : List ℤ) : ℤ × ℕ :=
  (l.getD (rs p % l.length) 0, p + 1)

/-- One step of Fisher–Yates: exchange the elements at positions `i` and
`j` (identity when an index is out of range; never reached out of range
by `shuffle`). -/
def swapL (l : List ℤ) (i j : ℕ) : List ℤ :=
  match l[i]?, l[j]? with
  | some a, some b => (l.set i b).set j a
  | _, _ => l

/-- The loop of Python `random.shuffle`: for `i = len-1, …, 1` draw
`j` uniformly in `[0, i]` and swap positions `i` and `j`.  The first
argument is the current value of `i`. -/
def shuffleAux (rs : ℕ → ℕ) : ℕ → ℕ → List ℤ → List ℤ × ℕ
  | 0, p, l => (l, p)
  | i + 1, p, l => shuffleAux rs i (p + 1) (swapL l (i + 1) (rs p % (i + 2)))

/-- Python `random.shuffle(l)`: Fisher–Yates driven by the stream. -/
def shuffle (rs : ℕ → ℕ) (p : ℕ) (l : List ℤ) : List ℤ × ℕ :=
  shuffleAux rs (l.length - 1) p l

end PyRand

/-- Python `int()` applied to a float value truncates toward zero. -/
def pyInt (q : ℚ) : ℤ := if 0 ≤ q then ⌊q⌋ else ⌈q⌉

namespace DataGen

/-- The sampling loop of `data_gen.py` (lines 70–72 resp. 105–107):
`while len(unique_key_set) < target: unique_key_set.add(randint(0, kmax))`.
`acc` is the set as a duplicate-free list; `none` means the loop did not
finish within `fuel` iterations (a model artifact: the Python loop has no
bound, it terminates with probability 1). -/
def buildPool (rs : ℕ → ℕ) (kmax target : ℤ) : ℕ → ℕ → List ℤ → Option (List ℤ × ℕ)
  | 0, p, acc =>
    if (acc.length : ℤ) < target then none else some (acc, p)
  | fuel + 1, p, acc =>
    if (acc.length : ℤ) < target then
      let r := (PyRand.randint rs p 0 kmax).1
      buildPool rs kmax target fuel ((PyRand.randint rs p 0 kmax).2)
        (if r ∈ acc then acc else acc ++ [r])
    else some (acc, p)

/-- The duplicate draws (line 85 resp. 120):
`[random.choice(unique_key_list) for _ in range(n)]`. -/
def drawDups (rs : ℕ → ℕ) (l : List ℤ) : ℕ → ℕ → List ℤ × ℕ
  | 0, p => ([], p)
  | n + 1, p =>
    let r := drawDups rs l n (PyRand.choice rs p l).2
    ((PyRand.choice rs p l).1 :: r.1, r.2)

/-- Result of the per-table pool pipeline before the shuffle. -/
inductive PoolRes where
  | ok (ulist dups : List ℤ) (p : ℕ)
  | noRows
  | fuelOut
deriving DecidableEq

/-- Lines 61–85 (resp. 96–120) of `data_gen.py`: compute
`num_unique_keys = int(N * f)`, `num_duplicate_keys = N - num_unique_keys`,
`key_range_max = N * 2`, build the unique pool, apply the empty-pool
fix-up (append one forced key when `N > 0`, else print and return), and
draw the duplicates.  `noRows` is the early `return` that aborts the whole
`generate_data` call. -/
def tablePoolRaw (rs : ℕ → ℕ) (fuel : ℕ) (f : ℚ) (N : ℤ) (p : ℕ) : PoolRes :=
  let numUnique := pyInt ((N : ℚ) * f)
  let numDup := N - numUnique
  let kmax := N * 2
  match buildPool rs kmax numUnique fuel p [] with
  | none => .fuelOut
  | some (ulist, p₁) =>
    if ulist.isEmpty then
      if 0 < N then
        let k := (PyRand.randint rs p₁ 0 kmax).1
        let dp := drawDups rs [k] numDup.toNat ((PyRand.randint rs p₁ 0 kmax).2)
        .ok [k] dp.1 dp.2
      else .noRows
    else
      let dp := drawDups rs ulist numDup.toNat p₁
      .ok ulist dp.1 dp.2

/-- Result of the complete per-table key pipeline. -/
inductive TableRes where
  | keys (ks : List ℤ) (p : ℕ)
  | noRows
  | fuelOut
deriving DecidableEq

/-- Lines 61–93 (resp. 96–127) of `data_gen.py`: the raw pool pipeline,
then `final_key_pool = unique_key_list + duplicates`,
`random.shuffle(final_key_pool)`, `keys = final_key_pool[:N]`. -/
def genTableKeys (rs : ℕ → ℕ) (fuel : ℕ) (f : ℚ) (N : ℤ) (p : ℕ) : TableRes :=
  match tablePoolRaw rs fuel f N p with
  | .fuelOut => .fuelOut
  | .noRows => .noRows
  | .ok ulist dups p₁ =>
    let sp := PyRand.shuffle rs p₁ (ulist ++ dups)
    .keys (sp.1.take N.toNat) sp.2

/-- The loop of `generate_file_a`: `for i in range(n): k = keys[i]; v =
randint(1, 100); write`.  The `Bool` is `true` iff the loop completed
without an `IndexError`; on an out-of-range access the thread dies and no
further lines are written. -/
def writeALoop (rs : ℕ → ℕ) (keys : List ℤ) : ℕ → ℕ → ℕ → List (ℤ × ℤ) × Bool × ℕ
  | 0, _, p => ([], true, p)
  | n + 1, i, p =>
    match keys[i]? with
    | none => ([], false, p)
    | some k =>
      let r := writeALoop rs keys n (i + 1) ((PyRand.randint rs p 1 100).2)
      ((k, (PyRand.randint rs p 1 100).1) :: r.1, r.2)

/-- The loop of `generate_file_b`: `for i in range(n): k = keys[i]; write`. -/
def writeBLoop (keys : List ℤ) : ℕ → ℕ → List ℤ × Bool
  | 0, _ => ([], true)
  | n + 1, i =>
    match keys[i]? with
    | none => ([], false)
    | some k =>
      let r := writeBLoop keys n (i + 1)
      (k :: r.1, r.2)

/-- `generate_file_a(num_rows, keys)`: the lines written to `A.txt` and
whether the writer thread completed without an `IndexError`.
(Python `range` of a negative bound is empty.) -/
def generate_file_a (rs : ℕ → ℕ) (numRows : ℤ) (keys : List ℤ) :
    List (ℤ × ℤ) × Bool :=
  ((writeALoop rs keys numRows.toNat 0 0).1, (writeALoop rs keys numRows.toNat 0 0).2.1)

/-- `generate_file_b(num_rows, keys)`: the lines written to `B.txt` and
whether the writer thread completed without an `IndexError`. -/
def generate_file_b (numRows : ℤ) (keys : List ℤ) : List ℤ × Bool :=
  writeBLoop keys numRows.toNat 0

/-- Observable outcome of one `generate_data()` run of `data_gen.py`.
`usageError` records the `except`-branch message for invalid arguments;
a file component is `none` when the script returned before the writer
threads were started, so the file was never opened or truncated. -/
structure RunOutput where
  usageError : Bool
  fileA : Option (List (ℤ × ℤ) × Bool)
  fileB : Option (List ℤ × Bool)
deriving DecidableEq

/-- `generate_data()` of `data_gen.py`.  `argv1, argv2` are
`int(sys.argv[1]), int(sys.argv[2])` with `none` for a missing or
non-numeric argument (`IndexError` / `ValueError`), `argv3` likewise for
`float(sys.argv[3])`.  The overall `none` is the fuel artifact of the
sampling loop. -/
def generate_data (rsMain rsA : ℕ → ℕ) (fuel : ℕ)
    (argv1 argv2 : Option ℤ) (argv3 : Option ℚ) : Option RunOutput :=
  match argv1, argv2, argv3 with
  | some numRowsA, some numRowsB, some f =>
    if 0 ≤ f ∧ f ≤ 1 then
      match genTableKeys rsMain fuel f numRowsA 0 with
      | .fuelOut => none
      | .noRows => some ⟨false, none, none⟩
      | .keys keysA p₁ =>
        match genTableKeys rsMain fuel f numRowsB p₁ with
        | .fuelOut => none
        | .noRows => some ⟨false, none, none⟩
        | .keys keysB _ =>
          some ⟨false, some (generate_file_a rsA numRowsA keysA),
                some (generate_file_b numRowsB keysB)⟩
    else some ⟨true, none, none⟩
  | _, _, _ => some ⟨true, none, none⟩

end DataGen

namespace SimpleGen

/-- The pool comprehension of `simple_data_gen_int_int.py` (line 33):
`[random.randint(0, key_range_max) for _ in range(key_pool_size)]`. -/
def genPool (rs : ℕ → ℕ) (kmax : ℤ) : ℕ → ℕ → List ℤ × ℕ
  | 0, p => ([], p)
  | n + 1, p =>
    let r := genPool rs kmax n ((PyRand.randint rs p 0 kmax).2)
    ((PyRand.randint rs p 0 kmax).1 :: r.1, r.2)

/-- The `A.txt` loop of `simple_data_gen_int_int.py`:
`k = random.choice(key_pool); v = random.randint(1, 100)`. -/
def writeSimpleA (rs : ℕ → ℕ) (pool : List ℤ) : ℕ → ℕ → List (ℤ × ℤ) × ℕ
  | 0, p => ([], p)
  | n + 1, p =>
    let r := writeSimpleA rs pool n (((PyRand.choice rs p pool).2) + 1)
    (((PyRand.choice rs p pool).1, (PyRand.randint rs ((PyRand.choice rs p pool).2) 1 100).1) :: r.1, r.2)

/-- The `B.txt` loop of `simple_data_gen_int_int.py`:
`k = random.choice(key_pool)`. -/
def writeSimpleB (rs : ℕ → ℕ) (pool : List ℤ) : ℕ → ℕ → List ℤ × ℕ
  | 0, p => ([], p)
  | n + 1, p =>
    let r := writeSimpleB rs pool n ((PyRand.choice rs p pool).2)
    ((PyRand.choice rs p pool).1 :: r.1, r.2)

/-- Observable outcome of `simple_data_gen_int_int.py`: the shared key
pool and the lines of the two files (this script is sequential and has no
abort path before the writes). -/
structure SimpleOut where
  pool : List ℤ
  fileA : List (ℤ × ℤ)
  fileB : List ℤ
deriving DecidableEq

/-- `generate_data()` of `simple_data_gen_int_int.py`.  A `none` argument
is a missing or non-numeric `sys.argv` entry, replaced by the default
10000.  `key_pool_size = max(1, (num_rows_a + num_rows_b) // 20)` uses
Python floor division; `key_range_max = key_pool_size * 5`.  The
`if not key_pool` fix-up is kept although the pool is never empty. -/
def generate_data (rs : ℕ → ℕ) (argv1 argv2 : Option ℤ) : SimpleOut :=
  let numRowsA := argv1.getD 10000
  let numRowsB := argv2.getD 10000
  let poolSize := max 1 (Int.fdiv (numRowsA + numRowsB) 20)
  let gp := genPool rs (poolSize * 5) poolSize.toNat 0
  let pool := if gp.1.isEmpty then [0] else gp.1
  let wa := writeSimpleA rs pool numRowsA.toNat gp.2
  let wb := writeSimpleB rs pool numRowsB.toNat wa.2
  ⟨pool, wa.1, wb.1⟩

end SimpleGen

namespace RandomGen

/-- The range of a standard 32-bit signed integer (lines 14–15). -/
def INT_MIN : ℤ := -2147483648

/-- The range of a standard 32-bit signed integer (lines 14–15). -/
def INT_MAX : ℤ := 2147483647

/-- The `A.txt` loop of `random_data_gen_int_int.py`: independent 32-bit
key and value per row. -/
def writeRandA (rs : ℕ → ℕ) : ℕ → ℕ → List (ℤ × ℤ) × ℕ
  | 0, p => ([], p)
  | n + 1, p =>
    let r := writeRandA rs n (p + 2)
    (((PyRand.randint rs p INT_MIN INT_MAX).1,
      (PyRand.randint rs (p + 1) INT_MIN INT_MAX).1) :: r.1, r.2)

/-- The `B.txt` loop of `random_data_gen_int_int.py`. -/
def writeRandB (rs : ℕ → ℕ) : ℕ → ℕ → List ℤ × ℕ
  | 0, p => ([], p)
  | n + 1, p =>
    let r := writeRandB rs n ((PyRand.randint rs p INT_MIN INT_MAX).2)
    ((PyRand.randint rs p INT_MIN INT_MAX).1 :: r.1, r.2)

/-- Observable outcome of `random_data_gen_int_int.py`. -/
structure RandomOut where
  fileA : List (ℤ × ℤ)
  fileB : List ℤ
deriving DecidableEq

/-- `generate_data()` of `random_data_gen_int_int.py`.  A `none` argument
is a missing or non-numeric `sys.argv` entry, replaced by the default
10000; generation is never aborted by bad arguments. -/
def generate_data (rs : ℕ → ℕ) (argv1 argv2 : Option ℤ) : RandomOut :=
  let numRowsA := argv1.getD 10000
  let numRowsB := argv2.getD 10000
  let wa := writeRandA rs numRowsA.toNat 0
  let wb := writeRandB rs numRowsB.toNat wa.2
  ⟨wa.1, wb.1⟩

end RandomGen

/-! ### Basic facts about the random primitives -/

namespace PyRand

theorem randint_fst_le {rs : ℕ → ℕ} {p : ℕ} {lo hi : ℤ} (h : lo ≤ hi) :
    lo ≤ (randint rs p lo hi).1 ∧ (randint rs p lo hi).1 ≤ hi := by
  simp only [randint]
  have h0 : hi - lo + 1 ≠ 0 := by omega
  have h1 : (0 : ℤ) < hi - lo + 1 := by omega
  have h2 := Int.emod_nonneg (rs p : ℤ) h0
  have h3 := Int.emod_lt_of_pos (rs p : ℤ) h1
  omega

theorem choice_fst_mem {rs : ℕ → ℕ} {p : ℕ} {l : List ℤ} (h : l ≠ []) :
    (choice rs p l).1 ∈ l := by
  simp only [choice]
  have hlen : 0 < l.length := List.length_pos.2 h
  have hidx : rs p % l.length < l.length := Nat.mod_lt _ hlen
  rw [List.getD_eq_getElem?_getD, List.getElem?_eq_getElem hidx]
  exact List.getElem_mem hidx

theorem count_set_add (x c : ℤ) :
    ∀ (l : List ℤ) (n : ℕ) (h : n < l.length),
      (l.set n c).count x + (if l.get ⟨n, h⟩ = x then 1 else 0) =
        l.count x + (if c = x then 1 else 0)
  | a :: l, 0, _ => by
    simp only [List.set, List.get, List.count_cons, beq_iff_eq]
    omega
  | a :: l, n + 1, h => by
    have ih := count_set_add x c l n (by simpa using h)
    simp only [List.set, List.get, List.count_cons, beq_iff_eq]
    omega

theorem swapL_perm (l : List ℤ) (i j : ℕ) : List.Perm (swapL l i j) l := by
  unfold swapL
  cases hi : l[i]? with
  | none => exact List.Perm.refl _
  | some a =>
    cases hj : l[j]? with
    | none => exact List.Perm.refl _
    | some b =>
      simp only
      rw [List.perm_iff_count]
      intro x
      have hi' : i < l.length := (List.getElem?_eq_some.1 hi).1
      have hj' : j < l.length := (List.getElem?_eq_some.1 hj).1
      have hia : l.get ⟨i, hi'⟩ = a := by
        simpa [List.getElem?_eq_getElem hi'] using hi
      have hjb : l.get ⟨j, hj'⟩ = b := by
        simpa [List.getElem?_eq_getElem hj'] using hj
      have hj'' : j < (l.set i b).length := by simpa using hj'
      have hgj : (l.set i b).get ⟨j, hj''⟩ = b := by
        rw [List.get_eq_getElem, List.getElem_set]
        split
        · rfl
        · simpa [List.getElem?_eq_getElem hj'] using hj
      have h1 := count_set_add x a (l.set i b) j hj''
      have h2 := count_set_add x b l i hi'
      rw [hgj] at h1
      rw [hia] at h2
      omega

theorem shuffleAux_fst_perm (rs : ℕ → ℕ) :
    ∀ (n p : ℕ) (l : List ℤ), List.Perm (shuffleAux rs n p l).1 l
  | 0, _, l => List.Perm.refl l
  | n + 1, p, l =>
    (shuffleAux_fst_perm rs n (p + 1) (swapL l (n + 1) (rs p % (n + 2)))).trans
      (swapL_perm l (n + 1) (rs p % (n + 2)))

theorem shuffle_fst_perm (rs : ℕ → ℕ) (p : ℕ) (l : List ℤ) :
    List.Perm (shuffle rs p l).1 l :=
  shuffleAux_fst_perm rs (l.length - 1) p l

theorem shuffle_fst_length (rs : ℕ → ℕ) (p : ℕ) (l : List ℤ) :
    (shuffle rs p l).1.length = l.length :=
  (shuffle_fst_perm rs p l).length_eq

theorem shuffle_fst_mem {rs : ℕ → ℕ} {p : ℕ} {l : List ℤ} {x : ℤ}
    (h : x ∈ (shuffle rs p l).1) : x ∈ l :=
  (shuffle_fst_perm rs p l).mem_iff.1 h

end PyRand

/-- On nonnegative rationals, Python truncation agrees with the floor. -/
theorem pyInt_eq_floor {q : ℚ} (h : 0 ≤ q) : pyInt q = ⌊q⌋ := if_pos h

/-! ### Invariants of the `data_gen.py` pool pipeline -/

namespace DataGen

theorem buildPool_spec {rs : ℕ → ℕ} {kmax target : ℤ} (hk : 0 ≤ kmax) :
    ∀ (fuel p : ℕ) (acc l : List ℤ) (p' : ℕ),
      buildPool rs kmax target fuel p acc = some (l, p') →
      acc.Nodup → (∀ x ∈ acc, 0 ≤ x ∧ x ≤ kmax) → (acc.length : ℤ) ≤ target →
      l.Nodup ∧ (∀ x ∈ l, 0 ≤ x ∧ x ≤ kmax) ∧ (l.length : ℤ) = target := by
  intro fuel
  induction fuel with
  | zero =>
    intro p acc l p' h hnd hbd hle
    simp only [buildPool] at h
    split at h
    · exact absurd h (by simp)
    · obtain ⟨rfl, rfl⟩ : acc = l ∧ p = p' := by simpa using h
      exact ⟨hnd, hbd, by omega⟩
  | succ fuel ih =>
    intro p acc l p' h hnd hbd hle
    simp only [buildPool] at h
    split at h
    · rename_i hlt
      have hrb : 0 ≤ (PyRand.randint rs p 0 kmax).1 ∧
          (PyRand.randint rs p 0 kmax).1 ≤ kmax := PyRand.randint_fst_le hk
      by_cases hmem : (PyRand.randint rs p 0 kmax).1 ∈ acc
      · rw [if_pos hmem] at h
        exact ih _ _ _ _ h hnd hbd (by omega)
      · rw [if_neg hmem] at h
        refine ih _ _ _ _ h ?_ ?_ ?_
        · simpa [List.nodup_append, hnd] using hmem
        · intro x hx
          rcases List.mem_append.1 hx with hx | hx
          · exact hbd x hx
          · simp only [List.mem_singleton] at hx
            subst hx; exact hrb
        · simp only [List.length_append, List.length_singleton]
          push_cast
          omega
    · obtain ⟨rfl, rfl⟩ : acc = l ∧ p = p' := by simpa using h
      exact ⟨hnd, hbd, by omega⟩

theorem drawDups_fst_length (rs : ℕ → ℕ) (l : List ℤ) :
    ∀ (n p : ℕ), ((drawDups rs l n p).1).length = n
  | 0, _ => rfl
  | n + 1, p => by
    simp [drawDups, drawDups_fst_length rs l n]

theorem drawDups_fst_mem {rs : ℕ → ℕ} {l : List ℤ} (hl : l ≠ []) :
    ∀ (n p : ℕ) (x : ℤ), x ∈ (drawDups rs l n p).1 → x ∈ l
  | 0, _, x, hx => by simp [drawDups] at hx
  | n + 1, p, x, hx => by
    simp only [drawDups, List.mem_cons] at hx
    rcases hx with hx | hx
    · subst hx; exact PyRand.choice_fst_mem hl
    · exact drawDups_fst_mem hl n _ x hx

theorem writeALoop_spec (rs : ℕ → ℕ) (keys : List ℤ) :
    ∀ (n i p : ℕ), i + n ≤ keys.length →
      (writeALoop rs keys n i p).2.1 = true ∧
        ((writeALoop rs keys n i p).1).map Prod.fst = (keys.drop i).take n
  | 0, i, p, _ => ⟨rfl, by simp [writeALoop]⟩
  | n + 1, i, p, h => by
    have hi : i < keys.length := by omega
    have hk : keys[i]? = some keys[i] := List.getElem?_eq_getElem hi
    have ih := writeALoop_spec rs keys n (i + 1) ((PyRand.randint rs p 1 100).2)
      (by omega)
    unfold writeALoop
    rw [hk]
    refine ⟨ih.1, ?_⟩
    simp only [List.map_cons, ih.2]
    rw [← List.getElem_cons_drop keys i hi]
    rfl

theorem writeBLoop_spec (keys : List ℤ) :
    ∀ (n i : ℕ), i + n ≤ keys.length →
      (writeBLoop keys n i).2 = true ∧
        (writeBLoop keys n i).1 = (keys.drop i).take n
  | 0, i, _ => ⟨rfl, by simp [writeBLoop]⟩
  | n + 1, i, h => by
    have hi : i < keys.length := by omega
    have hk : keys[i]? = some keys[i] := List.getElem?_eq_getElem hi
    have ih := writeBLoop_spec keys n (i + 1) (by omega)
    unfold writeBLoop
    rw [hk]
    refine ⟨ih.1, ?_⟩
    simp only [ih.2]
    rw [← List.getElem_cons_drop keys i hi]
    rfl

/-- `generate_file_a` on a key list of exactly the requested length:
the writer completes and writes the keys in order. -/
theorem generate_file_a_spec (rs : ℕ → ℕ) (numRows : ℤ) (keys : List ℤ)
    (h : keys.length = numRows.toNat) :
    (generate_file_a rs numRows keys).2 = true ∧
      ((generate_file_a rs numRows keys).1).map Prod.fst = keys := by
  have := writeALoop_spec rs keys numRows.toNat 0 0 (by omega)
  refine ⟨this.1, ?_⟩
  rw [generate_file_a] at *
  simp only [this.2, List.drop_zero]
  rw [← h, List.take_length]

/-- `generate_file_b` on a key list of exactly the requested length:
the writer completes and writes the keys in order. -/
theorem generate_file_b_spec (numRows : ℤ) (keys : List ℤ)
    (h : keys.length = numRows.toNat) :
    (generate_file_b numRows keys).2 = true ∧
      (generate_file_b numRows keys).1 = keys := by
  have := writeBLoop_spec keys numRows.toNat 0 (by omega)
  refine ⟨this.1, ?_⟩
  rw [generate_file_b] at *
  simp only [this.2, List.drop_zero]
  rw [← h, List.take_length]

end DataGen

namespace DataGen

/-- `int(N * f)` is nonnegative for valid inputs. -/
theorem numUnique_nonneg {N : ℤ} {f : ℚ} (hN : 0 ≤ N) (hf : 0 ≤ f) :
    0 ≤ pyInt ((N : ℚ) * f) := by
  have hq : (0 : ℚ) ≤ (N : ℚ) * f := mul_nonneg (by exact_mod_cast hN) hf
  rw [pyInt_eq_floor hq]
  exact Int.le_floor.2 (by exact_mod_cast hq)

/-- `int(N * f) ≤ N` for a fraction `f ≤ 1`. -/
theorem numUnique_le {N : ℤ} {f : ℚ} (hN : 0 ≤ N) (hf0 : 0 ≤ f) (hf1 : f ≤ 1) :
    pyInt ((N : ℚ) * f) ≤ N := by
  have hq : (0 : ℚ) ≤ (N : ℚ) * f := mul_nonneg (by exact_mod_cast hN) hf0
  rw [pyInt_eq_floor hq]
  have : (N : ℚ) * f ≤ (N : ℚ) := by
    calc (N : ℚ) * f ≤ (N : ℚ) * 1 :=
          mul_le_mul_of_nonneg_left hf1 (by exact_mod_cast hN)
    _ = (N : ℚ) := mul_one _
  calc ⌊(N : ℚ) * f⌋ ≤ ⌊(N : ℚ)⌋ := Int.floor_le_floor this
  _ = N := Int.floor_intCast N

/-- Shape of a successful per-table raw pool: the unique list is
duplicate-free, bounded by `2N`, non-empty; the duplicates are drawn from
it and number `N - int(N*f)`; the unique list has size `int(N*f)`, or 1
in the forced degenerate case. -/
theorem tablePoolRaw_spec {rs : ℕ → ℕ} {fuel : ℕ} {f : ℚ} {N : ℤ} {p : ℕ}
    {ulist dups : List ℤ} {p' : ℕ}
    (hN : 0 < N) (hf0 : 0 ≤ f)
    (h : tablePoolRaw rs fuel f N p = .ok ulist dups p') :
    ulist.Nodup ∧ (∀ x ∈ ulist, 0 ≤ x ∧ x ≤ N * 2) ∧ ulist ≠ [] ∧
      (∀ x ∈ dups, x ∈ ulist) ∧
      dups.length = (N - pyInt ((N : ℚ) * f)).toNat ∧
      (if pyInt ((N : ℚ) * f) = 0 then ulist.length = 1
        else (ulist.length : ℤ) = pyInt ((N : ℚ) * f)) := by
  have hu0 : 0 ≤ pyInt ((N : ℚ) * f) := numUnique_nonneg (le_of_lt hN) hf0
  simp only [tablePoolRaw] at h
  cases hbp : buildPool rs (N * 2) (pyInt ((N : ℚ) * f)) fuel p [] with
  | none => rw [hbp] at h; exact absurd h (by simp)
  | some v =>
    obtain ⟨ul, p₁⟩ := v
    rw [hbp] at h
    dsimp only at h
    have hbs := buildPool_spec (by omega) fuel p [] ul p₁ hbp (by simp)
      (by simp) (by simpa using hu0)
    by_cases hemp : ul.isEmpty
    · rw [if_pos hemp] at h
      rw [if_pos hN] at h
      have hul : ul = [] := List.isEmpty_iff.1 hemp
      have hu : pyInt ((N : ℚ) * f) = 0 := by
        have := hbs.2.2
        rw [hul] at this
        simpa using this.symm
      simp only [PoolRes.ok.injEq] at h
      obtain ⟨h1, h2, _⟩ := h
      subst h1
      subst h2
      have hkb := @PyRand.randint_fst_le rs p₁ 0 (N * 2) (by omega)
      refine ⟨by simp, ?_, by simp, ?_, ?_, ?_⟩
      · intro x hx
        simp only [List.mem_singleton] at hx
        subst hx
        exact hkb
      · intro x hx
        exact drawDups_fst_mem (by simp) _ _ x hx
      · simp [drawDups_fst_length, hu]
      · rw [if_pos hu]
        simp
    · rw [if_neg hemp] at h
      have hul : ul ≠ [] := fun hh => hemp (by simp [hh])
      simp only [PoolRes.ok.injEq] at h
      obtain ⟨h1, h2, _⟩ := h
      subst h1
      subst h2
      have hu : pyInt ((N : ℚ) * f) ≠ 0 := by
        intro hz
        apply hul
        have := hbs.2.2
        rw [hz] at this
        simpa using List.length_eq_zero.1 (by exact_mod_cast this)
      refine ⟨hbs.1, hbs.2.1, hul, ?_, ?_, ?_⟩
      · intro x hx
        exact drawDups_fst_mem hul _ _ x hx
      · simp [drawDups_fst_length]
      · rw [if_neg hu]
        exact hbs.2.2

/-- Shape of a successful per-table key list: exactly `N` keys, all in
`[0, 2N]`, with `int(N*f)` distinct values (or 1 in the degenerate case),
and pairwise distinct when `int(N*f) = N`. -/
theorem genTableKeys_spec {rs : ℕ → ℕ} {fuel : ℕ} {f : ℚ} {N : ℤ} {p : ℕ}
    {ks : List ℤ} {p' : ℕ}
    (hN : 0 < N) (hf0 : 0 ≤ f) (hf1 : f ≤ 1)
    (h : genTableKeys rs fuel f N p = .keys ks p') :
    ks.length = N.toNat ∧ (∀ x ∈ ks, 0 ≤ x ∧ x ≤ N * 2) ∧
      ks.toFinset.card =
        (if pyInt ((N : ℚ) * f) = 0 then 1 else (pyInt ((N : ℚ) * f)).toNat) ∧
      (pyInt ((N : ℚ) * f) = N → ks.Nodup) := by
  have hu0 : 0 ≤ pyInt ((N : ℚ) * f) := numUnique_nonneg (le_of_lt hN) hf0
  have huN : pyInt ((N : ℚ) * f) ≤ N := numUnique_le (le_of_lt hN) hf0 hf1
  simp only [genTableKeys] at h
  cases htp : tablePoolRaw rs fuel f N p with
  | noRows => rw [htp] at h; exact absurd h (by simp)
  | fuelOut => rw [htp] at h; exact absurd h (by simp)
  | ok ulist dups p₁ =>
    rw [htp] at h
    simp only [TableRes.keys.injEq] at h
    obtain ⟨h1, _⟩ := h
    obtain ⟨hnd, hbd, hne, hdm, hdl, hulen⟩ := tablePoolRaw_spec hN hf0 htp
    have hperm := PyRand.shuffle_fst_perm rs p₁ (ulist ++ dups)
    have hmem : ∀ x, x ∈ ulist ++ dups → x ∈ ulist := by
      intro x hx
      rcases List.mem_append.1 hx with hx | hx
      · exact hx
      · exact hdm x hx
    by_cases hu : pyInt ((N : ℚ) * f) = 0
    · rw [if_pos hu] at hulen
      obtain ⟨k₀, hk₀⟩ := List.length_eq_one.1 hulen
      have hpoollen : (ulist ++ dups).length = 1 + N.toNat := by
        rw [List.length_append, hulen, hdl, hu]
        omega
      have hslen : (PyRand.shuffle rs p₁ (ulist ++ dups)).1.length = 1 + N.toNat := by
        rw [PyRand.shuffle_fst_length, hpoollen]
      have hkslen : ks.length = N.toNat := by
        rw [← h1, List.length_take, hslen]
        omega
      have hksmem : ∀ x ∈ ks, x = k₀ := by
        intro x hx
        rw [← h1] at hx
        have hx₁ := PyRand.shuffle_fst_mem (List.take_subset _ _ hx)
        have := hmem x hx₁
        rw [hk₀] at this
        simpa using this
      have hksne : ks ≠ [] := by
        intro hh
        rw [hh] at hkslen
        simp at hkslen
        omega
      refine ⟨hkslen, ?_, ?_, ?_⟩
      · intro x hx
        have hx' := hksmem x hx
        subst hx'
        apply hbd
        rw [hk₀]
        simp
      · rw [if_pos hu]
        obtain ⟨y, hy⟩ := List.exists_mem_of_ne_nil ks hksne
        have hyk := hksmem y hy
        subst hyk
        have : ks.toFinset = {y} := by
          apply Finset.ext
          intro z
          simp only [List.mem_toFinset, Finset.mem_singleton]
          constructor
          · intro hz
            exact hksmem z hz
          · intro hz
            subst hz
            exact hy
        rw [this]
        rfl
      · intro hcon
        rw [hu] at hcon
        omega
    · rw [if_neg hu] at hulen
      have hpoollen : (ulist ++ dups).length = N.toNat := by
        rw [List.length_append, hdl]
        omega
      have hslen : (PyRand.shuffle rs p₁ (ulist ++ dups)).1.length = N.toNat := by
        rw [PyRand.shuffle_fst_length, hpoollen]
      have hks : ks = (PyRand.shuffle rs p₁ (ulist ++ dups)).1 := by
        rw [← h1]
        exact List.take_of_length_le (le_of_eq hslen)
      have hksperm : List.Perm ks (ulist ++ dups) := by
        rw [hks]
        exact hperm
      refine ⟨by rw [hks, hslen], ?_, ?_, ?_⟩
      · intro x hx
        exact hbd x (hmem x (hksperm.mem_iff.1 hx))
      · rw [if_neg hu]
        have htf : ks.toFinset = ulist.toFinset := by
          apply Finset.ext
          intro z
          simp only [List.mem_toFinset]
          constructor
          · intro hz
            exact hmem z (hksperm.mem_iff.1 hz)
          · intro hz
            exact hksperm.mem_iff.2 (List.mem_append.2 (Or.inl hz))
        rw [htf, List.toFinset_card_of_nodup hnd]
        omega
      · intro hcon
        have hdz : dups = [] := by
          have : dups.length = 0 := by rw [hdl, hcon]; omega
          exact List.length_eq_zero.1 this
        rw [hdz, List.append_nil] at hksperm
        exact hksperm.nodup_iff.2 hnd

end DataGen

namespace DataGen

/-- With a non-positive target the sampling loop exits immediately. -/
theorem buildPool_nonpos {rs : ℕ → ℕ} {kmax target : ℤ} (ht : target ≤ 0)
    (fuel p : ℕ) : buildPool rs kmax target fuel p [] = some ([], p) := by
  cases fuel with
  | zero =>
    rw [buildPool, if_neg (by simp only [List.length_nil, Nat.cast_zero]; omega)]
  | succ n =>
    rw [buildPool, if_neg (by simp only [List.length_nil, Nat.cast_zero]; omega)]

/-- A non-positive row count reaches the `"No rows to generate."` early
return of `generate_data`. -/
theorem tablePoolRaw_nonpos {rs : ℕ → ℕ} {fuel : ℕ} {f : ℚ} {N : ℤ} {p : ℕ}
    (hN : N ≤ 0) (hf0 : 0 ≤ f) : tablePoolRaw rs fuel f N p = .noRows := by
  have hq : (N : ℚ) * f ≤ 0 := by
    calc (N : ℚ) * f ≤ 0 * f :=
          mul_le_mul_of_nonneg_right (by exact_mod_cast hN) hf0
    _ = 0 := zero_mul _
  have ht : pyInt ((N : ℚ) * f) ≤ 0 := by
    rw [pyInt]
    split
    · calc ⌊(N : ℚ) * f⌋ ≤ ⌊(0 : ℚ)⌋ := Int.floor_le_floor hq
      _ = 0 := Int.floor_zero
    · calc ⌈(N : ℚ) * f⌉ ≤ ⌈(0 : ℚ)⌉ := Int.ceil_le_ceil hq
      _ = 0 := Int.ceil_zero
  simp only [tablePoolRaw]
  rw [buildPool_nonpos ht]
  dsimp only
  rw [if_pos (by simp), if_neg (by omega)]

theorem genTableKeys_nonpos {rs : ℕ → ℕ} {fuel : ℕ} {f : ℚ} {N : ℤ} {p : ℕ}
    (hN : N ≤ 0) (hf0 : 0 ≤ f) : genTableKeys rs fuel f N p = .noRows := by
  simp only [genTableKeys, tablePoolRaw_nonpos hN hf0]

/-- With a positive row count the early return is unreachable. -/
theorem genTableKeys_pos_not_noRows {rs : ℕ → ℕ} {fuel : ℕ} {f : ℚ} {N : ℤ}
    {p : ℕ} (hN : 0 < N) : genTableKeys rs fuel f N p ≠ .noRows := by
  simp only [genTableKeys]
  cases hbp : tablePoolRaw rs fuel f N p with
  | fuelOut => simp
  | ok ulist dups p₁ => simp
  | noRows =>
    exfalso
    simp only [tablePoolRaw] at hbp
    rcases hb2 : buildPool rs (N * 2) (pyInt ((N : ℚ) * f)) fuel p [] with _ | ⟨ul, p₁⟩
    · rw [hb2] at hbp
      simp at hbp
    · rw [hb2] at hbp
      dsimp only at hbp
      split at hbp <;> simp_all

/-- Decomposition of a completed run with two positive row counts: both
per-table pipelines produced key lists and both writers ran. -/
theorem generate_data_keys {rsMain rsA : ℕ → ℕ} {fuel : ℕ} {na nb : ℤ}
    {f : ℚ} {out : RunOutput}
    (hna : 0 < na) (hnb : 0 < nb) (hf0 : 0 ≤ f) (hf1 : f ≤ 1)
    (h : generate_data rsMain rsA fuel (some na) (some nb) (some f) = some out) :
    ∃ ksA pA ksB pB,
      genTableKeys rsMain fuel f na 0 = .keys ksA pA ∧
      genTableKeys rsMain fuel f nb pA = .keys ksB pB ∧
      out = ⟨false, some (generate_file_a rsA na ksA),
        some (generate_file_b nb ksB)⟩ := by
  simp only [generate_data] at h
  rw [if_pos ⟨hf0, hf1⟩] at h
  cases hA : genTableKeys rsMain fuel f na 0 with
  | fuelOut => rw [hA] at h; exact absurd h (by simp)
  | noRows => exact absurd hA (genTableKeys_pos_not_noRows hna)
  | keys ksA pA =>
    rw [hA] at h
    dsimp only at h
    cases hB : genTableKeys rsMain fuel f nb pA with
    | fuelOut => rw [hB] at h; exact absurd h (by simp)
    | noRows => exact absurd hB (genTableKeys_pos_not_noRows hnb)
    | keys ksB pB =>
      rw [hB] at h
      refine ⟨ksA, pA, ksB, pB, rfl, hB, ?_⟩
      simpa using h.symm

/-- A zero row count for table A aborts the whole run: normal return,
neither file created. -/
theorem generate_data_zeroA {rsMain rsA : ℕ → ℕ} {fuel : ℕ} {nb : ℤ} {f : ℚ}
    (hf0 : 0 ≤ f) (hf1 : f ≤ 1) :
    generate_data rsMain rsA fuel (some 0) (some nb) (some f) =
      some ⟨false, none, none⟩ := by
  simp only [generate_data]
  rw [if_pos ⟨hf0, hf1⟩, genTableKeys_nonpos le_rfl hf0]

end DataGen

/-! ### Facts about the simple and random generator variants -/

namespace SimpleGen

theorem genPool_fst_length (rs : ℕ → ℕ) (kmax : ℤ) :
    ∀ (n p : ℕ), ((genPool rs kmax n p).1).length = n
  | 0, _ => rfl
  | n + 1, p => by simp [genPool, genPool_fst_length rs kmax n]

theorem genPool_fst_bounds {rs : ℕ → ℕ} {kmax : ℤ} (hk : 0 ≤ kmax) :
    ∀ (n p : ℕ) (x : ℤ), x ∈ (genPool rs kmax n p).1 → 0 ≤ x ∧ x ≤ kmax
  | 0, _, x, hx => by simp [genPool] at hx
  | n + 1, p, x, hx => by
    simp only [genPool, List.mem_cons] at hx
    rcases hx with hx | hx
    · subst hx; exact PyRand.randint_fst_le hk
    · exact genPool_fst_bounds hk n _ x hx

theorem writeSimpleA_fst_length (rs : ℕ → ℕ) (pool : List ℤ) :
    ∀ (n p : ℕ), ((writeSimpleA rs pool n p).1).length = n
  | 0, _ => rfl
  | n + 1, p => by simp [writeSimpleA, writeSimpleA_fst_length rs pool n]

theorem writeSimpleB_fst_length (rs : ℕ → ℕ) (pool : List ℤ) :
    ∀ (n p : ℕ), ((writeSimpleB rs pool n p).1).length = n
  | 0, _ => rfl
  | n + 1, p => by simp [writeSimpleB, writeSimpleB_fst_length rs pool n]

theorem writeSimpleA_fst_mem {rs : ℕ → ℕ} {pool : List ℤ} (hp : pool ≠ []) :
    ∀ (n p : ℕ) (kv : ℤ × ℤ), kv ∈ (writeSimpleA rs pool n p).1 → kv.1 ∈ pool
  | 0, _, kv, hkv => by simp [writeSimpleA] at hkv
  | n + 1, p, kv, hkv => by
    simp only [writeSimpleA, List.mem_cons] at hkv
    rcases hkv with hkv | hkv
    · subst hkv; exact PyRand.choice_fst_mem hp
    · exact writeSimpleA_fst_mem hp n _ kv hkv

theorem writeSimpleB_fst_mem {rs : ℕ → ℕ} {pool : List ℤ} (hp : pool ≠ []) :
    ∀ (n p : ℕ) (k : ℤ), k ∈ (writeSimpleB rs pool n p).1 → k ∈ pool
  | 0, _, k, hk => by simp [writeSimpleB] at hk
  | n + 1, p, k, hk => by
    simp only [writeSimpleB, List.mem_cons] at hk
    rcases hk with hk | hk
    · subst hk; exact PyRand.choice_fst_mem hp
    · exact writeSimpleB_fst_mem hp n _ k hk

end SimpleGen

namespace RandomGen

theorem writeRandA_fst_length (rs : ℕ → ℕ) :
    ∀ (n p : ℕ), ((writeRandA rs n p).1).length = n
  | 0, _ => rfl
  | n + 1, p => by simp [writeRandA, writeRandA_fst_length rs n]

theorem writeRandB_fst_length (rs : ℕ → ℕ) :
    ∀ (n p : ℕ), ((writeRandB rs n p).1).length = n
  | 0, _ => rfl
  | n + 1, p => by simp [writeRandB, writeRandB_fst_length rs n]

end RandomGen

namespace DataGen

/-- Consolidated shape of a completed run with two positive row counts:
both files are written completely, with exactly the requested number of
lines, keys in range, and the expected number of distinct keys. -/
theorem run_files_spec {rsMain rsA : ℕ → ℕ} {fuel : ℕ} {na nb : ℤ} {f : ℚ}
    {out : RunOutput}
    (hna : 0 < na) (hnb : 0 < nb) (hf0 : 0 ≤ f) (hf1 : f ≤ 1)
    (h : generate_data rsMain rsA fuel (some na) (some nb) (some f) = some out) :
    ∃ la lb, out = ⟨false, some (la, true), some (lb, true)⟩ ∧
      la.length = na.toNat ∧ lb.length = nb.toNat ∧
      ((la.map Prod.fst).toFinset.card =
        if pyInt ((na : ℚ) * f) = 0 then 1 else (pyInt ((na : ℚ) * f)).toNat) ∧
      (lb.toFinset.card =
        if pyInt ((nb : ℚ) * f) = 0 then 1 else (pyInt ((nb : ℚ) * f)).toNat) ∧
      (∀ kv ∈ la, 0 ≤ kv.1 ∧ kv.1 ≤ na * 2) ∧
      (∀ k ∈ lb, 0 ≤ k ∧ k ≤ nb * 2) ∧
      (pyInt ((na : ℚ) * f) = na → (la.map Prod.fst).Nodup) ∧
      (pyInt ((nb : ℚ) * f) = nb → lb.Nodup) := by
  obtain ⟨ksA, pA, ksB, pB, hA, hB, hout⟩ := generate_data_keys hna hnb hf0 hf1 h
  obtain ⟨hlenA, hbdA, hcardA, hndA⟩ := genTableKeys_spec hna hf0 hf1 hA
  obtain ⟨hlenB, hbdB, hcardB, hndB⟩ := genTableKeys_spec hnb hf0 hf1 hB
  obtain ⟨hokA, hmapA⟩ := generate_file_a_spec rsA na ksA hlenA
  obtain ⟨hokB, hfbB⟩ := generate_file_b_spec nb ksB hlenB
  refine ⟨(generate_file_a rsA na ksA).1, (generate_file_b nb ksB).1,
    ?_, ?_, ?_, ?_, ?_, ?_, ?_, ?_, ?_⟩
  · rw [hout]
    have ea : generate_file_a rsA na ksA =
        ((generate_file_a rsA na ksA).1, true) := by
      rw [← hokA]
    have eb : generate_file_b nb ksB =
        ((generate_file_b nb ksB).1, true) := by
      rw [← hokB]
    rw [ea, eb]
  · rw [← List.length_map (generate_file_a rsA na ksA).1 Prod.fst, hmapA, hlenA]
  · rw [hfbB, hlenB]
  · rw [hmapA]
    exact hcardA
  · rw [hfbB]
    exact hcardB
  · intro kv hkv
    exact hbdA kv.1 (by rw [← hmapA]; exact List.mem_map_of_mem Prod.fst hkv)
  · intro k hk
    rw [hfbB] at hk
    exact hbdB k hk
  · intro hc
    rw [hmapA]
    exact hndA hc
  · intro hc
    rw [hfbB]
    exact hndB hc

end DataGen

namespace SimpleGen

/-- The `if not key_pool` fix-up of `simple_data_gen_int_int.py` is dead
code: the pool always has `max 1 ((num_rows_a + num_rows_b) // 20)` entries. -/
theorem generate_data_eq (rs : ℕ → ℕ) (a1 a2 : Option ℤ) :
    SimpleGen.generate_data rs a1 a2 =
      ⟨(genPool rs (max 1 (Int.fdiv (a1.getD 10000 + a2.getD 10000) 20) * 5)
          (max 1 (Int.fdiv (a1.getD 10000 + a2.getD 10000) 20)).toNat 0).1,
        (writeSimpleA rs
          (genPool rs (max 1 (Int.fdiv (a1.getD 10000 + a2.getD 10000) 20) * 5)
            (max 1 (Int.fdiv (a1.getD 10000 + a2.getD 10000) 20)).toNat 0).1
          (a1.getD 10000).toNat
          (genPool rs (max 1 (Int.fdiv (a1.getD 10000 + a2.getD 10000) 20) * 5)
            (max 1 (Int.fdiv (a1.getD 10000 + a2.getD 10000) 20)).toNat 0).2).1,
        (writeSimpleB rs
          (genPool rs (max 1 (Int.fdiv (a1.getD 10000 + a2.getD 10000) 20) * 5)
            (max 1 (Int.fdiv (a1.getD 10000 + a2.getD 10000) 20)).toNat 0).1
          (a2.getD 10000).toNat
          (writeSimpleA rs
            (genPool rs (max 1 (Int.fdiv (a1.getD 10000 + a2.getD 10000) 20) * 5)
              (max 1 (Int.fdiv (a1.getD 10000 + a2.getD 10000) 20)).toNat 0).1
            (a1.getD 10000).toNat
            (genPool rs (max 1 (Int.fdiv (a1.getD 10000 + a2.getD 10000) 20) * 5)
              (max 1 (Int.fdiv (a1.getD 10000 + a2.getD 10000) 20)).toNat 0).2).2).1⟩ := by
  have hps : (1 : ℤ) ≤ max 1 (Int.fdiv (a1.getD 10000 + a2.getD 10000) 20) :=
    le_max_left _ _
  have hlen : (genPool rs (max 1 (Int.fdiv (a1.getD 10000 + a2.getD 10000) 20) * 5)
      (max 1 (Int.fdiv (a1.getD 10000 + a2.getD 10000) 20)).toNat 0).1.length =
      (max 1 (Int.fdiv (a1.getD 10000 + a2.getD 10000) 20)).toNat :=
    genPool_fst_length _ _ _ _
  have hne : ¬(genPool rs (max 1 (Int.fdiv (a1.getD 10000 + a2.getD 10000) 20) * 5)
      (max 1 (Int.fdiv (a1.getD 10000 + a2.getD 10000) 20)).toNat 0).1.isEmpty := by
    rw [List.isEmpty_iff]
    intro hnil
    rw [hnil] at hlen
    simp only [List.length_nil] at hlen
    omega
  simp only [generate_data]
  rw [if_neg hne]

/-- The shared key pool has exactly `max 1 ((na + nb) // 20)` entries. -/
theorem pool_length (rs : ℕ → ℕ) (a1 a2 : Option ℤ) :
    ((SimpleGen.generate_data rs a1 a2).pool.length : ℤ) =
      max 1 (Int.fdiv (a1.getD 10000 + a2.getD 10000) 20) := by
  rw [generate_data_eq]
  have hps : (1 : ℤ) ≤ max 1 (Int.fdiv (a1.getD 10000 + a2.getD 10000) 20) :=
    le_max_left _ _
  rw [genPool_fst_length]
  omega

end SimpleGen

/-! ### Claims -/

/-- C1, counterexample.  With `row_count_a = 0` (other inputs valid) the
claim asserts `A.txt` is produced with zero lines and table B still
proceeds; instead `generate_data` hits the `"No rows to generate."`
early return: neither file is ever opened, and table B is not generated. -/
theorem C1_counterexample :
    DataGen.generate_data id id 100 (some 0) (some 5) (some (1 / 2)) =
      some { usageError := false, fileA := none, fileB := none } := by
  with_unfolding_all rfl

/-- C1, amended.  If the requested row count for table A is 0 (other
inputs valid), `generate_data` returns normally (no exception) after
printing `"No rows to generate."`, but it aborts the whole run before
starting either writer thread: no key pool is built for table B, and
neither `A.txt` nor `B.txt` is created or truncated. -/
theorem C1_zero_rows_aborts_run {rsMain rsA : ℕ → ℕ} {fuel : ℕ} {nb : ℤ}
    {f : ℚ} (hf0 : 0 ≤ f) (hf1 : f ≤ 1) :
    DataGen.generate_data rsMain rsA fuel (some 0) (some nb) (some f) =
      some { usageError := false, fileA := none, fileB := none } :=
  DataGen.generate_data_zeroA hf0 hf1

/-- C1, witness. -/
theorem C1_witness :
    DataGen.generate_data id id 3 (some 0) (some 7) (some (1 / 2)) =
      some { usageError := false, fileA := none, fileB := none } :=
  C1_zero_rows_aborts_run (by norm_num) (by norm_num)

/-- C2, counterexample.  The claim quantifies over all non-negative row
counts, but with `row_count_b = 0` (and `row_count_a = 3`) the whole run
aborts before the writer threads start, so `A.txt` is not written at all
— its line count is not 3, the file does not even exist. -/
theorem C2_counterexample :
    DataGen.generate_data id id 100 (some 3) (some 0) (some 1) =
      some { usageError := false, fileA := none, fileB := none } := by
  with_unfolding_all rfl

/-- C2, amended.  For strictly positive row counts (and a valid
fraction), whenever the run completes, each table file is created and its
line count equals that table's requested row count exactly. -/
theorem C2_line_counts {rsMain rsA : ℕ → ℕ} {fuel : ℕ} {na nb : ℤ} {f : ℚ}
    (hna : 0 < na) (hnb : 0 < nb) (hf0 : 0 ≤ f) (hf1 : f ≤ 1)
    (hne : DataGen.generate_data rsMain rsA fuel (some na) (some nb) (some f) ≠
      none) :
    (DataGen.generate_data rsMain rsA fuel (some na) (some nb) (some f)).map
        (fun out => (out.fileA.map fun w => w.1.length,
          out.fileB.map fun w => w.1.length)) =
      some (some na.toNat, some nb.toNat) := by
  cases hgd : DataGen.generate_data rsMain rsA fuel (some na) (some nb) (some f) with
  | none => exact absurd hgd hne
  | some out =>
    obtain ⟨la, lb, hout, hlA, hlB, -, -, -, -, -, -⟩ :=
      DataGen.run_files_spec hna hnb hf0 hf1 hgd
    rw [hout]
    simp [hlA, hlB]

/-- C2, witness. -/
theorem C2_witness :
    (DataGen.generate_data id id 10 (some 2) (some 2) (some (1 / 2))).map
        (fun out => (out.fileA.map fun w => w.1.length,
          out.fileB.map fun w => w.1.length)) =
      some (some (2 : ℤ).toNat, some (2 : ℤ).toNat) :=
  C2_line_counts (by norm_num) (by norm_num) (by norm_num) (by norm_num)
    (by
      have hrun : DataGen.generate_data id id 10 (some 2) (some 2) (some (1 / 2)) =
          some ⟨false, some ([(0, 1), (0, 2)], true), some (([3, 3] : List ℤ), true)⟩ := by
        with_unfolding_all rfl
      intro hnone
      rw [hrun] at hnone
      exact Option.noConfusion hnone)

/-- C3, confirmed.  For positive row counts and a valid fraction, on any
completed run the number of distinct keys in each table's output is
`⌊N * f⌋` for that table's own `N` (or 1 when that floor is 0), and for
`f = 1` all keys of each table are pairwise distinct. -/
theorem C3_distinct_key_counts {rsMain rsA : ℕ → ℕ} {fuel : ℕ} {na nb : ℤ}
    {f : ℚ} (hna : 0 < na) (hnb : 0 < nb) (hf0 : 0 ≤ f) (hf1 : f ≤ 1)
    (hne : DataGen.generate_data rsMain rsA fuel (some na) (some nb) (some f) ≠
      none) :
    ((DataGen.generate_data rsMain rsA fuel (some na) (some nb) (some f)).map
        (fun out => (out.fileA.map fun w => (w.1.map Prod.fst).toFinset.card,
          out.fileB.map fun w => w.1.toFinset.card)) =
      some (some (if ⌊(na : ℚ) * f⌋ = 0 then 1 else ⌊(na : ℚ) * f⌋.toNat),
        some (if ⌊(nb : ℚ) * f⌋ = 0 then 1 else ⌊(nb : ℚ) * f⌋.toNat))) ∧
    (f = 1 →
      ((DataGen.generate_data rsMain rsA fuel (some na) (some nb) (some f)).map
          (fun out => (out.fileA.map fun w => decide (w.1.map Prod.fst).Nodup,
            out.fileB.map fun w => decide w.1.Nodup)) =
        some (some true, some true))) := by
  have hpa : pyInt ((na : ℚ) * f) = ⌊(na : ℚ) * f⌋ :=
    pyInt_eq_floor (mul_nonneg (by exact_mod_cast le_of_lt hna) hf0)
  have hpb : pyInt ((nb : ℚ) * f) = ⌊(nb : ℚ) * f⌋ :=
    pyInt_eq_floor (mul_nonneg (by exact_mod_cast le_of_lt hnb) hf0)
  cases hgd : DataGen.generate_data rsMain rsA fuel (some na) (some nb) (some f) with
  | none => exact absurd hgd hne
  | some out =>
    obtain ⟨la, lb, hout, -, -, hcA, hcB, -, -, hndA, hndB⟩ :=
      DataGen.run_files_spec hna hnb hf0 hf1 hgd
    rw [hpa] at hcA hndA
    rw [hpb] at hcB hndB
    constructor
    · rw [hout]
      simp [hcA, hcB]
    · intro hf
      subst hf
      rw [hout]
      have hfa : ⌊(na : ℚ) * 1⌋ = na := by
        rw [mul_one, Int.floor_intCast]
      have hfb : ⌊(nb : ℚ) * 1⌋ = nb := by
        rw [mul_one, Int.floor_intCast]
      simp [hndA hfa, hndB hfb]

/-- C3, witness. -/
theorem C3_witness :
    ((DataGen.generate_data id id 10 (some 2) (some 2) (some 1)).map
        (fun out => (out.fileA.map fun w => (w.1.map Prod.fst).toFinset.card,
          out.fileB.map fun w => w.1.toFinset.card)) =
      some (some (if ⌊(2 : ℚ) * 1⌋ = 0 then 1 else ⌊(2 : ℚ) * 1⌋.toNat),
        some (if ⌊(2 : ℚ) * 1⌋ = 0 then 1 else ⌊(2 : ℚ) * 1⌋.toNat))) ∧
    ((1 : ℚ) = 1 →
      ((DataGen.generate_data id id 10 (some 2) (some 2) (some 1)).map
          (fun out => (out.fileA.map fun w => decide (w.1.map Prod.fst).Nodup,
            out.fileB.map fun w => decide w.1.Nodup)) =
        some (some true, some true))) :=
  C3_distinct_key_counts (by norm_num) (by norm_num) (by norm_num) (by norm_num)
    (by
      have hrun : DataGen.generate_data id id 10 (some 2) (some 2) (some 1) =
          some ⟨false, some ([(1, 1), (0, 2)], true), some (([3, 4] : List ℤ), true)⟩ := by
        with_unfolding_all rfl
      intro hnone
      rw [hrun] at hnone
      exact Option.noConfusion hnone)

/-- C4, counterexample.  With `N = 1` and `f = 0` the degenerate branch
forces one key into the empty pool, but `num_duplicate_keys` was computed
before that fix-up: the duplicates number `N - 0 = 1`, not
`N - |unique pool| = 0`, and the concatenation has length 2, not `N = 1`. -/
theorem C4_counterexample :
    DataGen.tablePoolRaw id 10 0 1 0 = DataGen.PoolRes.ok [0] [0] 2 ∧
      ¬(([0] : List ℤ).length = ((1 : ℤ) - (([0] : List ℤ).length : ℤ)).toNat) ∧
      ¬((([0] : List ℤ) ++ [0]).length = (1 : ℤ).toNat) := by
  refine ⟨by with_unfolding_all rfl, by decide, by decide⟩

/-- C4, amended.  For `⌊N * f⌋ ≥ 1` (the pool is not forced) the claim
holds: the duplicate draws number `N` minus the unique-pool size, and the
concatenation of unique pool and duplicates has length exactly `N`.  In
the degenerate case `⌊N * f⌋ = 0 < N` the duplicates number `N` while the
forced pool has one key, so the concatenation has length `N + 1` and is
only cut back to `N` by the later slice. -/
theorem C4_pool_concat_length {rs : ℕ → ℕ} {fuel : ℕ} {f : ℚ} {N : ℤ}
    {p : ℕ} {ulist dups : List ℤ} {p' : ℕ}
    (hN : 0 < N) (hf0 : 0 ≤ f) (hf1 : f ≤ 1) (hu : 1 ≤ ⌊(N : ℚ) * f⌋)
    (h : DataGen.tablePoolRaw rs fuel f N p = .ok ulist dups p') :
    dups.length = (N - (ulist.length : ℤ)).toNat ∧
      (ulist ++ dups).length = N.toNat := by
  obtain ⟨-, -, -, -, hdl, hulen⟩ := DataGen.tablePoolRaw_spec hN hf0 h
  have hpy : pyInt ((N : ℚ) * f) = ⌊(N : ℚ) * f⌋ :=
    pyInt_eq_floor (mul_nonneg (by exact_mod_cast le_of_lt hN) hf0)
  have huN : pyInt ((N : ℚ) * f) ≤ N := DataGen.numUnique_le (le_of_lt hN) hf0 hf1
  rw [hpy] at hdl hulen huN
  rw [if_neg (by omega)] at hulen
  constructor
  · rw [hdl, hulen]
  · rw [List.length_append, hdl]
    omega

/-- C4, witness. -/
theorem C4_witness :
    (([0] : List ℤ).length = ((2 : ℤ) - ((([0] : List ℤ).length : ℕ) : ℤ)).toNat) ∧
      ((([0] : List ℤ) ++ [0]).length = (2 : ℤ).toNat) :=
  C4_pool_concat_length (by norm_num) (by norm_num) (by norm_num)
    (by norm_num) (by with_unfolding_all rfl :
      DataGen.tablePoolRaw id 10 (1 / 2) 2 0 = DataGen.PoolRes.ok [0] [0] 2)

/-- C5, counterexample.  Pool keys are drawn with `randint(0, 2N)`, which
is inclusive: with `N = 1` a realization of the random source puts the
key `2 = 2 * N` itself into the pool, so "strictly less than
`2 * row_count`" is false. -/
theorem C5_counterexample :
    DataGen.tablePoolRaw (fun _ => 2) 10 1 1 0 =
        DataGen.PoolRes.ok [2] [] 1 ∧
      ¬((2 : ℤ) < 2 * 1) := by
  refine ⟨by with_unfolding_all rfl, by decide⟩

/-- C5, amended.  Every key in a table's unique pool lies in the closed
interval `[0, 2 * row_count]` (the upper bound is attainable). -/
theorem C5_pool_keys_closed_bound {rs : ℕ → ℕ} {fuel : ℕ} {f : ℚ} {N : ℤ}
    {p : ℕ} {ulist dups : List ℤ} {p' : ℕ}
    (hN : 0 < N) (hf0 : 0 ≤ f)
    (h : DataGen.tablePoolRaw rs fuel f N p = .ok ulist dups p') :
    ulist.all (fun x => decide (0 ≤ x ∧ x ≤ 2 * N)) = true := by
  obtain ⟨-, hbd, -, -, -, -⟩ := DataGen.tablePoolRaw_spec hN hf0 h
  rw [List.all_eq_true]
  intro x hx
  rw [decide_eq_true_eq]
  have := hbd x hx
  omega

/-- C5, witness. -/
theorem C5_witness :
    ([0, 1] : List ℤ).all (fun x => decide (0 ≤ x ∧ x ≤ 2 * 2)) = true :=
  C5_pool_keys_closed_bound (by norm_num) (by norm_num)
    (by with_unfolding_all rfl :
      DataGen.tablePoolRaw id 10 1 2 0 = DataGen.PoolRes.ok [0, 1] [] 2)

/-- C6, confirmed.  On any completed run with positive row counts and a
valid fraction, every key written to each file lies in the closed
interval `[0, 2 * row_count]` for that table's own row count. -/
theorem C6_output_keys_in_range {rsMain rsA : ℕ → ℕ} {fuel : ℕ} {na nb : ℤ}
    {f : ℚ} (hna : 0 < na) (hnb : 0 < nb) (hf0 : 0 ≤ f) (hf1 : f ≤ 1)
    (hne : DataGen.generate_data rsMain rsA fuel (some na) (some nb) (some f) ≠
      none) :
    (DataGen.generate_data rsMain rsA fuel (some na) (some nb) (some f)).map
        (fun out =>
          (out.fileA.map fun w =>
            w.1.all fun kv => decide (0 ≤ kv.1 ∧ kv.1 ≤ 2 * na),
           out.fileB.map fun w =>
            w.1.all fun k => decide (0 ≤ k ∧ k ≤ 2 * nb))) =
      some (some true, some true) := by
  cases hgd : DataGen.generate_data rsMain rsA fuel (some na) (some nb) (some f) with
  | none => exact absurd hgd hne
  | some out =>
    obtain ⟨la, lb, hout, -, -, -, -, hbA, hbB, -, -⟩ :=
      DataGen.run_files_spec hna hnb hf0 hf1 hgd
    rw [hout]
    simp only [Option.map_some, Option.map]
    have hall : la.all (fun kv => decide (0 ≤ kv.1 ∧ kv.1 ≤ 2 * na)) = true := by
      rw [List.all_eq_true]
      intro kv hkv
      rw [decide_eq_true_eq]
      have := hbA kv hkv
      omega
    have hallb : lb.all (fun k => decide (0 ≤ k ∧ k ≤ 2 * nb)) = true := by
      rw [List.all_eq_true]
      intro k hk
      rw [decide_eq_true_eq]
      have := hbB k hk
      omega
    rw [hall, hallb]

/-- C6, witness. -/
theorem C6_witness :
    (DataGen.generate_data id id 10 (some 2) (some 3) (some (1 / 2))).map
        (fun out =>
          (out.fileA.map fun w =>
            w.1.all fun kv => decide (0 ≤ kv.1 ∧ kv.1 ≤ 2 * 2),
           out.fileB.map fun w =>
            w.1.all fun k => decide (0 ≤ k ∧ k ≤ 2 * 3))) =
      some (some true, some true) :=
  C6_output_keys_in_range (by norm_num) (by norm_num) (by norm_num) (by norm_num)
    (by
      have hrun : DataGen.generate_data id id 10 (some 2) (some 3) (some (1 / 2)) =
          some ⟨false, some ([(0, 1), (0, 2)], true),
            some (([3, 3, 3] : List ℤ), true)⟩ := by
        with_unfolding_all rfl
      intro hnone
      rw [hrun] at hnone
      exact Option.noConfusion hnone)

/-- C7, confirmed.  A missing or non-numeric row count or fraction, or a
fraction outside `[0, 1]`, takes the `except` branch: the user is told
the arguments are invalid and `generate_data` returns before building any
key pool and before any file is opened or truncated. -/
theorem C7_invalid_arguments_abort {rsMain rsA : ℕ → ℕ} {fuel : ℕ}
    {a1 a2 : Option ℤ} {a3 : Option ℚ}
    (h : a1 = none ∨ a2 = none ∨ a3 = none ∨
      ∃ f, a3 = some f ∧ ¬(0 ≤ f ∧ f ≤ 1)) :
    DataGen.generate_data rsMain rsA fuel a1 a2 a3 =
      some { usageError := true, fileA := none, fileB := none } := by
  rcases h with h | h | h | ⟨f, hf, hv⟩
  · subst h
    cases a2 <;> cases a3 <;> rfl
  · subst h
    cases a1 <;> cases a3 <;> rfl
  · subst h
    cases a1 <;> cases a2 <;> rfl
  · subst hf
    cases a1 with
    | none => rfl
    | some na =>
      cases a2 with
      | none => rfl
      | some nb =>
        simp only [DataGen.generate_data]
        rw [if_neg hv]

/-- C7, witness. -/
theorem C7_witness :
    DataGen.generate_data id id 5 (some 1) (some 1) (some 2) =
      some { usageError := true, fileA := none, fileB := none } :=
  C7_invalid_arguments_abort (Or.inr (Or.inr (Or.inr ⟨2, rfl, by norm_num⟩)))

/-- C8, confirmed.  With positive row counts, each writer thread is
handed a key list of exactly its table's row count, so every index access
`keys[i]` is in bounds: on any completed run both writer loops finish
without an `IndexError` (completion flag `true`) after writing exactly
the requested number of lines. -/
theorem C8_writers_never_index_error {rsMain rsA : ℕ → ℕ} {fuel : ℕ}
    {na nb : ℤ} {f : ℚ}
    (hna : 0 < na) (hnb : 0 < nb) (hf0 : 0 ≤ f) (hf1 : f ≤ 1)
    (hne : DataGen.generate_data rsMain rsA fuel (some na) (some nb) (some f) ≠
      none) :
    (DataGen.generate_data rsMain rsA fuel (some na) (some nb) (some f)).map
        (fun out => (out.fileA.map fun w => (w.2, w.1.length),
          out.fileB.map fun w => (w.2, w.1.length))) =
      some (some (true, na.toNat), some (true, nb.toNat)) := by
  cases hgd : DataGen.generate_data rsMain rsA fuel (some na) (some nb) (some f) with
  | none => exact absurd hgd hne
  | some out =>
    obtain ⟨la, lb, hout, hlA, hlB, -, -, -, -, -, -⟩ :=
      DataGen.run_files_spec hna hnb hf0 hf1 hgd
    rw [hout]
    simp [hlA, hlB]

/-- C8, witness. -/
theorem C8_witness :
    (DataGen.generate_data id id 10 (some 2) (some 2) (some 1)).map
        (fun out => (out.fileA.map fun w => (w.2, w.1.length),
          out.fileB.map fun w => (w.2, w.1.length))) =
      some (some (true, (2 : ℤ).toNat), some (true, (2 : ℤ).toNat)) :=
  C8_writers_never_index_error (by norm_num) (by norm_num) (by norm_num)
    (by norm_num)
    (by
      have hrun : DataGen.generate_data id id 10 (some 2) (some 2) (some 1) =
          some ⟨false, some ([(1, 1), (0, 2)], true),
            some (([3, 4] : List ℤ), true)⟩ := by
        with_unfolding_all rfl
      intro hnone
      rw [hrun] at hnone
      exact Option.noConfusion hnone)

/-- C9, confirmed.  In `simple_data_gen_int_int.py` the two tables draw
every key from one shared pool of `max 1 ((num_rows_a + num_rows_b) // 20)`
values, each in `[0, 5 * pool_size]` — unlike `data_gen.py`, whose A and
B pools are constructed independently. -/
theorem C9_shared_pool (rs : ℕ → ℕ) (a1 a2 : Option ℤ) :
    ((SimpleGen.generate_data rs a1 a2).pool.length : ℤ) =
        max 1 (Int.fdiv (a1.getD 10000 + a2.getD 10000) 20) ∧
      ((SimpleGen.generate_data rs a1 a2).pool.all
        (fun x => decide (0 ≤ x ∧
          x ≤ 5 * ((SimpleGen.generate_data rs a1 a2).pool.length : ℤ))) = true) ∧
      ((SimpleGen.generate_data rs a1 a2).fileA.all
        (fun kv => decide (kv.1 ∈ (SimpleGen.generate_data rs a1 a2).pool)) =
        true) ∧
      ((SimpleGen.generate_data rs a1 a2).fileB.all
        (fun k => decide (k ∈ (SimpleGen.generate_data rs a1 a2).pool)) =
        true) := by
  have hps : (1 : ℤ) ≤ max 1 (Int.fdiv (a1.getD 10000 + a2.getD 10000) 20) :=
    le_max_left _ _
  have hpl := SimpleGen.pool_length rs a1 a2
  have hpool : (SimpleGen.generate_data rs a1 a2).pool =
      (SimpleGen.genPool rs
        (max 1 (Int.fdiv (a1.getD 10000 + a2.getD 10000) 20) * 5)
        (max 1 (Int.fdiv (a1.getD 10000 + a2.getD 10000) 20)).toNat 0).1 := by
    rw [SimpleGen.generate_data_eq]
  have hne : (SimpleGen.generate_data rs a1 a2).pool ≠ [] := by
    intro hh
    rw [hh] at hpl
    simp only [List.length_nil, Nat.cast_zero] at hpl
    omega
  have hnegp : (SimpleGen.genPool rs
      (max 1 (Int.fdiv (a1.getD 10000 + a2.getD 10000) 20) * 5)
      (max 1 (Int.fdiv (a1.getD 10000 + a2.getD 10000) 20)).toNat 0).1 ≠ [] := by
    rw [← hpool]
    exact hne
  have hfa : (SimpleGen.generate_data rs a1 a2).fileA =
      (SimpleGen.writeSimpleA rs
        (SimpleGen.genPool rs
          (max 1 (Int.fdiv (a1.getD 10000 + a2.getD 10000) 20) * 5)
          (max 1 (Int.fdiv (a1.getD 10000 + a2.getD 10000) 20)).toNat 0).1
        (a1.getD 10000).toNat
        (SimpleGen.genPool rs
          (max 1 (Int.fdiv (a1.getD 10000 + a2.getD 10000) 20) * 5)
          (max 1 (Int.fdiv (a1.getD 10000 + a2.getD 10000) 20)).toNat 0).2).1 := by
    rw [SimpleGen.generate_data_eq]
  have hfb : (SimpleGen.generate_data rs a1 a2).fileB =
      (SimpleGen.writeSimpleB rs
        (SimpleGen.genPool rs
          (max 1 (Int.fdiv (a1.getD 10000 + a2.getD 10000) 20) * 5)
          (max 1 (Int.fdiv (a1.getD 10000 + a2.getD 10000) 20)).toNat 0).1
        (a2.getD 10000).toNat
        (SimpleGen.writeSimpleA rs
          (SimpleGen.genPool rs
            (max 1 (Int.fdiv (a1.getD 10000 + a2.getD 10000) 20) * 5)
            (max 1 (Int.fdiv (a1.getD 10000 + a2.getD 10000) 20)).toNat 0).1
          (a1.getD 10000).toNat
          (SimpleGen.genPool rs
            (max 1 (Int.fdiv (a1.getD 10000 + a2.getD 10000) 20) * 5)
            (max 1 (Int.fdiv (a1.getD 10000 + a2.getD 10000) 20)).toNat 0).2).2).1 := by
    rw [SimpleGen.generate_data_eq]
  have hk5 : (0 : ℤ) ≤ max 1 (Int.fdiv (a1.getD 10000 + a2.getD 10000) 20) * 5 :=
    mul_nonneg (le_trans zero_le_one hps) (by norm_num)
  refine ⟨hpl, ?_, ?_, ?_⟩
  · rw [List.all_eq_true]
    intro x hx
    rw [decide_eq_true_eq]
    have hb := SimpleGen.genPool_fst_bounds hk5 _ _ x (hpool ▸ hx)
    refine ⟨hb.1, ?_⟩
    rw [hpl]
    have := hb.2
    omega
  · rw [List.all_eq_true]
    intro kv hkv
    rw [decide_eq_true_eq, hpool]
    rw [hfa] at hkv
    exact SimpleGen.writeSimpleA_fst_mem hnegp _ _ kv hkv
  · rw [List.all_eq_true]
    intro k hk
    rw [decide_eq_true_eq, hpool]
    rw [hfb] at hk
    exact SimpleGen.writeSimpleB_fst_mem hnegp _ _ k hk

/-- C10, confirmed.  In the `random_data_gen_int_int.py` and
`simple_data_gen_int_int.py` variants a missing or non-numeric row-count
argument does not abort generation: the affected table falls back to the
default 10000 rows and both output files are still written (the sibling
table keeps its own requested count). -/
theorem C10_missing_args_default_10000 (rsS rsR : ℕ → ℕ) (a : Option ℤ) :
    (SimpleGen.generate_data rsS none a).fileA.length = 10000 ∧
      (SimpleGen.generate_data rsS a none).fileB.length = 10000 ∧
      (SimpleGen.generate_data rsS none a).fileB.length = (a.getD 10000).toNat ∧
      (RandomGen.generate_data rsR none a).fileA.length = 10000 ∧
      (RandomGen.generate_data rsR a none).fileB.length = 10000 ∧
      (RandomGen.generate_data rsR none a).fileB.length = (a.getD 10000).toNat := by
  refine ⟨?_, ?_, ?_, ?_, ?_, ?_⟩
  · rw [SimpleGen.generate_data_eq]
    dsimp only
    rw [SimpleGen.writeSimpleA_fst_length]
    rfl
  · rw [SimpleGen.generate_data_eq]
    dsimp only
    rw [SimpleGen.writeSimpleB_fst_length]
    rfl
  · rw [SimpleGen.generate_data_eq]
    dsimp only
    rw [SimpleGen.writeSimpleB_fst_length]
  · simp only [RandomGen.generate_data]
    rw [RandomGen.writeRandA_fst_length]
    rfl
  · simp only [RandomGen.generate_data]
    rw [RandomGen.writeRandB_fst_length]
    rfl
  · simp only [RandomGen.generate_data]
    rw [RandomGen.writeRandB_fst_length]
